import Mathlib

/-!
Verification of the Portfolio Return Engine of `src/app.py`
(portfolio-performance-visualizer).

The Python source is shallowly embedded over exact rationals (`ℚ` stands in
for Python floats; all concrete values used in theorems are exactly
representable, so no rounding discrepancies arise).  Data model:

* a raw portfolio (`dict[str, float | None]`) is an association list
  `List (String × Option ℚ)` in insertion order;
* a price history returned by the provider is a date-ordered association
  list `List (Nat × ℚ)` (dates abstracted to naturals);
* pandas `NaN` entries are `none`; a pandas `Series`/column of floats with
  possible NaNs is a `List (Option ℚ)`.
-/

/-- Embeds line 89 of `normalize_weights` (src/app.py lines 88-92):

`total = sum(weight for weight in portfolio.values() if weight is not None)`

It sums every weight that is present (`is not None`), including zero and
negative ones. -/
def totalW (p : List (String × Option ℚ)) : ℚ :=
  (p.filterMap Prod.snd).sum

/-- Embeds the body of `normalize_weights` (src/app.py lines 88-92): if the
sum of present weights is 0 the input is returned unchanged, otherwise every
present weight is divided by the sum and an absent (`None`) weight becomes
the number 0. -/
def normalize_weights (p : List (String × Option ℚ)) : List (String × Option ℚ) :=
  if totalW p = 0 then p
  else p.map (fun e => (e.1,
    match e.2 with
    | some w => some (w / totalW p)
    | none => some 0))

/-- The sum of the entries whose weight is present and positive: the quantity
named `S` by the specification of `normalize` (spec §4.1). -/
def possum (p : List (String × Option ℚ)) : ℚ :=
  ((p.filterMap Prod.snd).filter (fun w => decide (0 < w))).sum

/-- Transcribed from the specification words of §4.1 (not from the source):
"return a new mapping where every entry's weight is divided by the sum
(entries with non-positive/absent weight map to 0)", the sum being taken
"only [over] entries with weight present and > 0". -/
def spec_normalize (p : List (String × Option ℚ)) : List (String × Option ℚ) :=
  p.map (fun e => (e.1,
    match e.2 with
    | some w => if 0 < w then some (w / possum p) else some 0
    | none => some 0))

/-- The sum of the values of a normalized mapping, absent weights counting
as 0 (the `sum(result.values())` of the spec's result invariant). -/
def valsum (p : List (String × Option ℚ)) : ℚ :=
  (p.map (fun e => e.2.getD 0)).sum

lemma totalW_nil : totalW [] = 0 := rfl

lemma possum_nil : possum [] = 0 := rfl

lemma valsum_nil : valsum [] = 0 := rfl

lemma totalW_cons (e : String × Option ℚ) (rest : List (String × Option ℚ)) :
    totalW (e :: rest) = (e.2.getD 0) + totalW rest := by
  cases h : e.2 with
  | none => simp [totalW, List.filterMap_cons, h]
  | some w => simp [totalW, List.filterMap_cons, h]

lemma possum_cons (e : String × Option ℚ) (rest : List (String × Option ℚ)) :
    possum (e :: rest) =
      (if 0 < e.2.getD 0 then e.2.getD 0 else 0) + possum rest := by
  cases h : e.2 with
  | none => simp [possum, List.filterMap_cons, h]
  | some w =>
    by_cases hw : 0 < w
    · simp [possum, List.filterMap_cons, h, List.filter_cons, hw]
    · simp [possum, List.filterMap_cons, h, List.filter_cons, hw]

lemma valsum_cons (e : String × Option ℚ) (rest : List (String × Option ℚ)) :
    valsum (e :: rest) = e.2.getD 0 + valsum rest := by
  simp [valsum]

/-- When no present weight is negative, the `total` computed by the source
(line 89) agrees with the spec's sum `S` over positive entries only. -/
lemma totalW_eq_possum (p : List (String × Option ℚ))
    (hnn : ∀ e ∈ p, 0 ≤ e.2.getD 0) : totalW p = possum p := by
  induction p with
  | nil => rfl
  | cons e rest ih =>
    have h1 : 0 ≤ e.2.getD 0 := hnn e (List.mem_cons_self e rest)
    have h2 : ∀ x ∈ rest, 0 ≤ x.2.getD 0 := fun x hx => hnn x (List.mem_cons_of_mem e hx)
    rw [totalW_cons, possum_cons, ih h2]
    rcases lt_or_eq_of_le h1 with h | h
    · rw [if_pos h]
    · rw [if_neg (by rw [← h]; exact lt_irrefl 0), ← h]

lemma valsum_normalize_map (t : ℚ) :
    ∀ p : List (String × Option ℚ),
      valsum (p.map (fun e => ((e.1,
        match e.2 with
        | some w => some (w / t)
        | none => some (0 : ℚ)) : String × Option ℚ))) = totalW p / t := by
  intro p
  induction p with
  | nil => simp [valsum_nil, totalW_nil]
  | cons e rest ih =>
    obtain ⟨s, ow⟩ := e
    cases ow with
    | none => simpa [valsum_cons, totalW_cons] using ih
    | some w => simp [valsum_cons, totalW_cons, ih, add_div]

/-- C3 counterexample: on the mapping `{A: 2, B: -1}` the positive-weight sum
`S = 2` is positive, but the source divides by the *signed* total `2 + (-1) = 1`,
returning `{A: 2, B: -1}`, whereas the claim requires `{A: 2/S = 1, B: 0}`. -/
theorem normalize_weights_negative_cex :
    0 < possum [("A", some (2 : ℚ)), ("B", some (-1 : ℚ))] ∧
    normalize_weights [("A", some (2 : ℚ)), ("B", some (-1 : ℚ))] ≠
      spec_normalize [("A", some (2 : ℚ)), ("B", some (-1 : ℚ))] := by
  constructor
  · norm_num [possum_cons, possum_nil]
  · norm_num [normalize_weights, spec_normalize, totalW_cons, totalW_nil,
      possum_cons, possum_nil]

/-- C3 (amended): for a raw mapping with no negative present weight whose
positive entries have positive sum, `normalize_weights` agrees with the
specification's description (positive weight ↦ weight / S, zero or absent
weight ↦ 0) and the resulting values sum to exactly 1 (hence within 1e-9). -/
theorem normalize_weights_positive_sum (p : List (String × Option ℚ))
    (hnn : ∀ e ∈ p, 0 ≤ e.2.getD 0) (hpos : 0 < possum p) :
    normalize_weights p = spec_normalize p ∧ valsum (normalize_weights p) = 1 := by
  have ht : totalW p = possum p := totalW_eq_possum p hnn
  have hne : totalW p ≠ 0 := by rw [ht]; exact ne_of_gt hpos
  have hbranch : normalize_weights p = p.map (fun e => (e.1,
      match e.2 with
      | some w => some (w / totalW p)
      | none => some 0)) := by
    unfold normalize_weights
    rw [if_neg hne]
  constructor
  · rw [hbranch]
    unfold spec_normalize
    apply List.map_congr_left
    intro e he
    obtain ⟨s, ow⟩ := e
    cases ow with
    | none => simp
    | some w =>
      have hw : 0 ≤ w := by simpa using hnn (s, some w) he
      rcases lt_or_eq_of_le hw with h2 | h2
      · simp [if_pos h2, ht]
      · rw [← h2]
        simp [lt_irrefl]
  · rw [hbranch, valsum_normalize_map (totalW p) p, div_self hne]

/-- C3 witness: a concrete mapping with non-negative weights and positive sum. -/
theorem normalize_weights_positive_sum_witness :
    normalize_weights [("A", some (3 : ℚ)), ("B", some (1 : ℚ)), ("C", none)] =
      spec_normalize [("A", some (3 : ℚ)), ("B", some (1 : ℚ)), ("C", none)] ∧
    valsum (normalize_weights [("A", some (3 : ℚ)), ("B", some (1 : ℚ)), ("C", none)]) = 1 :=
  normalize_weights_positive_sum _ (by decide)
    (by norm_num [possum_cons, possum_nil])

/-- C4 counterexample: the mapping `{A: -1}` has positive-weight sum 0, so the
claim requires it back unchanged; but the source's total is `-1 ≠ 0`, so it
divides and returns `{A: 1}`. -/
theorem normalize_weights_negative_total_cex :
    possum [("A", some (-1 : ℚ))] = 0 ∧
    normalize_weights [("A", some (-1 : ℚ))] ≠ [("A", some (-1 : ℚ))] := by
  constructor
  · norm_num [possum_cons, possum_nil]
  · norm_num [normalize_weights, totalW_cons, totalW_nil]

/-- C4 (amended): for a raw mapping with no negative present weight whose
positive entries sum to 0 (equivalently: every present weight is 0),
`normalize_weights` returns its input unchanged. -/
theorem normalize_weights_zero_sum_identity (p : List (String × Option ℚ))
    (hnn : ∀ e ∈ p, 0 ≤ e.2.getD 0) (hz : possum p = 0) :
    normalize_weights p = p := by
  have ht : totalW p = 0 := (totalW_eq_possum p hnn).trans hz
  unfold normalize_weights
  rw [if_pos ht]

/-- C4 witness: an all-zero/absent mapping is returned unchanged. -/
theorem normalize_weights_zero_sum_identity_witness :
    normalize_weights [("A", some (0 : ℚ)), ("B", none)] =
      [("A", some (0 : ℚ)), ("B", none)] :=
  normalize_weights_zero_sum_identity _ (by decide)
    (by norm_num [possum_cons, possum_nil])

/-- C9 counterexample: `{A: 1, B: None}` is already normalized in the claim's
sense (its positive entries sum to 1), yet `normalize_weights` rewrites the
absent weight of `B` to the number 0, so the mapping is not returned with
each entry keeping its weight. -/
theorem normalize_weights_idempotent_cex :
    possum [("A", some (1 : ℚ)), ("B", none)] = 1 ∧
    normalize_weights [("A", some (1 : ℚ)), ("B", none)] ≠
      [("A", some (1 : ℚ)), ("B", none)] := by
  constructor
  · norm_num [possum_cons, possum_nil]
  · norm_num [normalize_weights, totalW_cons, totalW_nil]
    simp

/-- C9 (amended): on a mapping whose weights are all present and non-negative
and whose positive entries sum to 1, `normalize_weights` is the identity:
each entry keeps its weight. -/
theorem normalize_weights_idempotent (p : List (String × Option ℚ))
    (hall : ∀ e ∈ p, e.2 ≠ none ∧ 0 ≤ e.2.getD 0) (hone : possum p = 1) :
    normalize_weights p = p := by
  have hnn : ∀ e ∈ p, 0 ≤ e.2.getD 0 := fun e he => (hall e he).2
  have ht : totalW p = 1 := (totalW_eq_possum p hnn).trans hone
  unfold normalize_weights
  rw [ht, if_neg one_ne_zero]
  have hid : ∀ e ∈ p, ((e.1,
      match e.2 with
      | some w => some (w / (1 : ℚ))
      | none => some 0) : String × Option ℚ) = e := by
    intro e he
    obtain ⟨s, ow⟩ := e
    cases ow with
    | none => exact absurd rfl (hall (s, none) he).1
    | some w => simp
  rw [List.map_congr_left hid]
  exact List.map_id p

/-- C9 witness: an already-normalized, all-present, non-negative mapping. -/
theorem normalize_weights_idempotent_witness :
    normalize_weights [("A", some (1 : ℚ))] = [("A", some (1 : ℚ))] :=
  normalize_weights_idempotent _ (by decide)
    (by norm_num [possum_cons, possum_nil])

/-- C10: `normalize_weights` preserves the key list of its input exactly, in
both branches (identity on zero total, per-entry rewrite otherwise): no
symbol is ever dropped or added. -/
theorem normalize_weights_keys (p : List (String × Option ℚ)) :
    (normalize_weights p).map Prod.fst = p.map Prod.fst := by
  unfold normalize_weights
  split
  · rfl
  · rw [List.map_map]
    rfl

/-- Embeds pandas `Series.pct_change` applied to the `Close` prices of one
symbol (src/app.py lines 146 and 185): for each date after the first the
value is `(price[t] - price[t-1]) / price[t-1]`; the first date gets `NaN`
(`none`).  A zero previous price is also mapped to `none` (pandas produces
`NaN`/`inf` there, both unusable); every theorem below assumes positive
prices, under which this branch is unreachable. -/
def pctAux (prev : ℚ) : List (Nat × ℚ) → List (Nat × Option ℚ)
  | [] => []
  | e :: rest => (e.1, if prev = 0 then none else some ((e.2 - prev) / prev)) :: pctAux e.2 rest

/-- The full `pct_change`: leading `NaN`, then consecutive fractional
changes. -/
def pct_change (h : List (Nat × ℚ)) : List (Nat × Option ℚ) :=
  match h with
  | [] => []
  | e :: rest => (e.1, none) :: pctAux e.2 rest

/-- Embeds `Series.dropna` (src/app.py line 148): keep exactly the dated
entries whose value is present. -/
def dropnaS (s : List (Nat × Option ℚ)) : List (Nat × ℚ) :=
  s.filterMap (fun e => e.2.map (fun v => (e.1, v)))

/-- Embeds `Series.cumprod` (src/app.py lines 152 and 214): running products
of a list, in order. -/
def cumprod (xs : List ℚ) : List ℚ :=
  (xs.scanl (fun a b => a * b) 1).tail

/-- Embeds `safe_calculate_returns` (src/app.py lines 141-156): `None` or
empty input gives `None`; otherwise daily returns are `pct_change` with the
leading `NaN` dropped, and the result is the cumulative product of
`1 + returns` on the surviving dates (`None` if no date survives).  The
`except` branch is unreachable in this model (all operations are total). -/
def safe_calculate_returns (df : Option (List (Nat × ℚ))) : Option (List (Nat × ℚ)) :=
  match df with
  | none => none
  | some prices =>
    let returns := dropnaS (pct_change prices)
    if returns.isEmpty then none
    else some ((returns.map Prod.fst).zip (cumprod (returns.map (fun e => 1 + e.2))))

lemma dropnaS_pctAux_length (rest : List (Nat × ℚ)) :
    ∀ prev : ℚ, prev ≠ 0 → (∀ e ∈ rest, e.2 ≠ 0) →
      (dropnaS (pctAux prev rest)).length = rest.length := by
  induction rest with
  | nil => intro prev _ _; rfl
  | cons e tl ih =>
    intro prev hprev hall
    rw [pctAux, if_neg hprev]
    have h1 : e.2 ≠ 0 := hall e (List.mem_cons_self e tl)
    have h2 : ∀ x ∈ tl, x.2 ≠ 0 := fun x hx => hall x (List.mem_cons_of_mem e hx)
    simp only [dropnaS, List.filterMap_cons, Option.map_some', List.length_cons]
    have := ih e.2 h1 h2
    simp only [dropnaS] at this
    rw [this]

/-- C8: for a price series of positive prices, the derived daily-return
series (`pct_change` then `dropna`) has length `n - 1` (which is
`max (0, n-1)` in natural-number subtraction); in particular a series with
fewer than 2 points yields an empty return series, which is also exactly
when `safe_calculate_returns` reports no data. -/
theorem returns_length (prices : List (Nat × ℚ)) (hpos : ∀ e ∈ prices, 0 < e.2) :
    (dropnaS (pct_change prices)).length = prices.length - 1 ∧
    (prices.length ≤ 1 → dropnaS (pct_change prices) = []) ∧
    (safe_calculate_returns (some prices) = none ↔ prices.length ≤ 1) := by
  have hlen : (dropnaS (pct_change prices)).length = prices.length - 1 := by
    cases prices with
    | nil => rfl
    | cons e rest =>
      have h1 : e.2 ≠ 0 := ne_of_gt (hpos e (List.mem_cons_self e rest))
      have h2 : ∀ x ∈ rest, x.2 ≠ 0 :=
        fun x hx => ne_of_gt (hpos x (List.mem_cons_of_mem e hx))
      simp only [pct_change, dropnaS, List.filterMap_cons, Option.map_none',
        List.length_cons, Nat.add_sub_cancel]
      have := dropnaS_pctAux_length rest e.2 h1 h2
      simp only [dropnaS] at this
      rw [this]
  have hempty : dropnaS (pct_change prices) = [] ↔ prices.length ≤ 1 := by
    rw [← List.length_eq_zero, hlen, Nat.sub_eq_zero_iff_le]
  refine ⟨hlen, fun h => hempty.mpr h, ?_⟩
  rw [safe_calculate_returns]
  by_cases he : dropnaS (pct_change prices) = []
  · simp [he, List.isEmpty_iff]
    exact hempty.mp he
  · have : (dropnaS (pct_change prices)).isEmpty = false := by
      rw [List.isEmpty_eq_false_iff_exists_mem]
      rcases List.exists_mem_of_ne_nil _ he with ⟨x, hx⟩
      exact ⟨x, hx⟩
    simp [this]
    exact lt_of_not_le (fun hle => he (hempty.mpr hle))

/-- C8 witness: three positive prices yield exactly two daily returns. -/
theorem returns_length_witness :
    (dropnaS (pct_change [(0, (100 : ℚ)), (1, 110), (2, 99)])).length = 3 - 1 ∧
    ([(0, (100 : ℚ)), (1, 110), (2, 99)].length ≤ 1 →
      dropnaS (pct_change [(0, (100 : ℚ)), (1, 110), (2, 99)]) = []) ∧
    (safe_calculate_returns (some [(0, (100 : ℚ)), (1, 110), (2, 99)]) = none ↔
      [(0, (100 : ℚ)), (1, 110), (2, 99)].length ≤ 1) :=
  returns_length _ (by decide)

/-- The value triple passed to `col.metric(name, value, delta)` by
`display_metric` (src/app.py lines 291-297); the Streamlit column object
itself is a pure UI sink and is not modelled. -/
structure DisplayMetric where
  label : String
  value : String
  delta : Option String
deriving DecidableEq

/-- Models Python float formatting `f"{q:.2f}"` on an exactly-representable
value: the decimal numeral of `q` rounded to two places with ties to even
(the rounding Python applies to the underlying IEEE value; the two coincide
whenever `q` is exactly representable, as all values in this development
are).  Implemented on `q.num`/`q.den` with integer arithmetic only:
`num100 / d` is the value scaled by 100, `f` its floor, and `r2` twice the
remainder, so `r2 < d`, `r2 > d`, `r2 = d` mean a fractional part below,
above, and exactly at one half. -/
def fmt2 (q : ℚ) : String :=
  let num100 : ℤ := q.num * 100
  let d : ℤ := (q.den : ℤ)
  let f : ℤ := Int.fdiv num100 d
  let r2 : ℤ := 2 * (num100 - d * f)
  let n : ℤ := if r2 < d then f else if d < r2 then f + 1 else if f % 2 = 0 then f else f + 1
  let m : ℕ := n.natAbs
  (if n < 0 then "-" else "") ++ toString (m / 100) ++ "." ++
    (if m % 100 < 10 then "0" ++ toString (m % 100) else toString (m % 100))

/-- Embeds `display_metric` (src/app.py lines 291-297): a `None` or empty
series displays "No data" with no delta; otherwise the value is the last
cumulative factor minus 1, times 100, formatted as `f"{x:.2f}%"`, and the
delta (when a benchmark total return is supplied) is the difference
formatted the same way. -/
def display_metric (returns : Option (List ℚ)) (name : String)
    (benchmark_return : Option ℚ) : DisplayMetric :=
  match returns with
  | none => ⟨name, "No data", none⟩
  | some rs =>
    if rs.isEmpty then ⟨name, "No data", none⟩
    else
      ⟨name, fmt2 ((rs.getLastD 0 - 1) * 100) ++ "%",
        benchmark_return.map (fun b => fmt2 ((rs.getLastD 0 - 1) * 100 - b) ++ "%")⟩

/-- C7 counterexample: a series ending at 1.12 against a reference total
return of 8 produces the delta string "4.00%" — `f"{x:.2f}%"` does not emit
a leading plus sign — whereas the claim requires the signed form "+4.00%". -/
theorem display_metric_delta_sign_cex :
    (display_metric (some [28/25]) "X" (some 8)).delta = some "4.00%" ∧
    (display_metric (some [28/25]) "X" (some 8)).delta ≠ some "+4.00%" := by
  have h4 : ((28 / 25 : ℚ) - 1) * 100 - 8 = 4 := by norm_num
  have hf : fmt2 4 = "4.00" := by decide
  constructor
  · simp [display_metric, List.getLastD, h4, hf]
  · simp [display_metric, List.getLastD, h4, hf]

/-- C7 (amended): `display_metric` returns "No data" with no delta exactly on
a missing or empty series; otherwise its value is `(last - 1) * 100`
formatted as `f"{x:.2f}%"` and its delta, when a reference is given, is the
difference of the total-return percentages in the same format (so with no
leading plus for positive values): the reference example yields value
"12.00%" and delta "4.00%". -/
theorem display_metric_spec (rs : List ℚ) (name : String) (b : Option ℚ)
    (h : rs ≠ []) :
    display_metric none name b = ⟨name, "No data", none⟩ ∧
    display_metric (some []) name b = ⟨name, "No data", none⟩ ∧
    display_metric (some rs) name b =
      ⟨name, fmt2 ((rs.getLastD 0 - 1) * 100) ++ "%",
        b.map (fun r => fmt2 ((rs.getLastD 0 - 1) * 100 - r) ++ "%")⟩ ∧
    display_metric (some [28/25]) "X" (some 8) = ⟨"X", "12.00%", some "4.00%"⟩ := by
  have hne : rs.isEmpty = false := by
    cases rs with
    | nil => exact absurd rfl h
    | cons a tl => rfl
  refine ⟨rfl, rfl, ?_, ?_⟩
  · rw [display_metric, if_neg (by rw [hne]; exact Bool.false_ne_true)]
  · have h12 : ((28 / 25 : ℚ) - 1) * 100 = 12 := by norm_num
    have h4 : ((28 / 25 : ℚ) - 1) * 100 - 8 = 4 := by norm_num
    have h48 : (12 : ℚ) - 8 = 4 := by norm_num
    have hf12 : fmt2 12 = "12.00" := by decide
    have hf4 : fmt2 4 = "4.00" := by decide
    simp [display_metric, List.getLastD, h12, h4, h48, hf12, hf4]

/-- C7 witness: the reference example, with a non-empty series. -/
theorem display_metric_spec_witness :
    display_metric (some [28/25]) "X" (some 8) = ⟨"X", "12.00%", some "4.00%"⟩ :=
  (display_metric_spec [28/25] "X" (some 8) (by decide)).2.2.2

/-- The outcome of one provider call `yf.download(symbol, ...)`
(src/app.py lines 175-181): either a (possibly empty) price history, or a
raised exception with its message.  A non-empty frame lacking a usable
`Close` column is represented by `ok []`, since the source treats
"`hist.empty` or no `Close` column" identically (line 183). -/
inductive FetchResult where
  | ok (hist : List (Nat × ℚ))
  | exn (msg : String)
deriving DecidableEq

/-- An abstract price provider: the response it would give a given symbol on
its n-th call.  The source only ever performs call number 0 per symbol; the
index exists so that statements about retrying are expressible. -/
def Provider : Type := String → Nat → FetchResult

/-- Embeds the per-symbol fetch block of `get_portfolio_data` (src/app.py
lines 173-191) in isolation: one single `yf.download` call; an empty result
yields an empty series plus the warning `"No data available for <symbol>"`;
a raised exception is caught and yields an empty series plus the warning
`"Error fetching data for <symbol>: <msg>"`.  The second component is the
list of `st.warning` diagnostics emitted. -/
def fetch_symbol (pv : Provider) (sym : String) : List (Nat × ℚ) × List String :=
  match pv sym 0 with
  | FetchResult.ok hist =>
    if hist.isEmpty then ([], ["No data available for " ++ sym]) else (hist, [])
  | FetchResult.exn m => ([], ["Error fetching data for " ++ sym ++ ": " ++ m])

/-- A provider whose first response for every symbol is an empty history and
whose second response is a usable two-point history: a fetcher that retried
(any `max_attempts ≥ 2`) would obtain data for any symbol. -/
def pvRetry : Provider := fun _ n =>
  if n = 0 then FetchResult.ok [] else FetchResult.ok [(0, 100), (1, 110)]

/-- C5 counterexample: the source performs no retry at all.  Against
`pvRetry` the data is available from the second attempt on, yet
`fetch_symbol` returns the empty series with a warning that names the symbol
but no attempt count — an empty first result is returned, not retried. -/
theorem fetch_symbol_no_retry_cex :
    pvRetry "AAA" 1 = FetchResult.ok [(0, 100), (1, 110)] ∧
    fetch_symbol pvRetry "AAA" = ([], ["No data available for AAA"]) := by
  constructor
  · rfl
  · rfl

/-- C5 (amended): the fetch of one symbol consists of exactly one provider
call — its outcome depends only on the response to call number 0, so no
retry and no inter-attempt pause exist; a non-empty history is returned with
no warning; an empty history is not retried but reported as
`"No data available for <symbol>"` (naming the symbol, with no attempt
count) alongside an empty series; a provider exception is caught and
reported as `"Error fetching data for <symbol>: <msg>"` alongside an empty
series, so the fetch never propagates an exception. -/
theorem fetch_symbol_single_attempt (pv pv' : Provider) (sym : String)
    (h : pv sym 0 = pv' sym 0) :
    fetch_symbol pv sym = fetch_symbol pv' sym ∧
    (∀ hist, pv sym 0 = FetchResult.ok hist → hist ≠ [] →
      fetch_symbol pv sym = (hist, [])) ∧
    (pv sym 0 = FetchResult.ok [] →
      fetch_symbol pv sym = ([], ["No data available for " ++ sym])) ∧
    (∀ m, pv sym 0 = FetchResult.exn m →
      fetch_symbol pv sym = ([], ["Error fetching data for " ++ sym ++ ": " ++ m])) := by
  refine ⟨?_, ?_, ?_, ?_⟩
  · rw [fetch_symbol, fetch_symbol, h]
  · intro hist hh hne
    rw [fetch_symbol, hh]
    have hie : hist.isEmpty = false := by simpa [List.isEmpty_iff] using hne
    simp [hie]
  · intro hh
    rw [fetch_symbol, hh]
    rfl
  · intro m hh
    rw [fetch_symbol, hh]

/-- C5 witness: the single-attempt characterization applied to `pvRetry`,
whose first response is empty. -/
theorem fetch_symbol_single_attempt_witness :
    fetch_symbol pvRetry "BBB" = ([], ["No data available for BBB"]) :=
  (fetch_symbol_single_attempt pvRetry pvRetry "BBB" rfl).2.2.1 rfl

/-- The pandas DataFrame `portfolio_data` (src/app.py line 167) restricted
to what the source uses: an ordered column-name list and date-indexed rows,
each row holding one possibly-`NaN` value per column. -/
structure DF where
  names : List String
  rows : List (Nat × List (Option ℚ))
deriving DecidableEq

/-- Pandas `DataFrame.empty` (src/app.py lines 193 and 199): true when there
are no columns or no rows. -/
def DF.emptyb (df : DF) : Bool := df.names.isEmpty || df.rows.isEmpty

/-- Column assignment `portfolio_data[symbol] = returns` (src/app.py line
186).  On a fresh empty frame the frame adopts the index of the assigned
series; on a non-empty frame pandas aligns the series to the existing index:
dates of the series outside the index are dropped, index dates missing from
the series become `NaN` (`(series.lookup date).join` is `none` both for an
absent date and for a present date carrying `NaN`). -/
def DF.assign (df : DF) (s : String) (series : List (Nat × Option ℚ)) : DF :=
  if df.names.isEmpty && df.rows.isEmpty then
    ⟨[s], series.map (fun e => (e.1, [e.2]))⟩
  else
    ⟨df.names ++ [s], df.rows.map (fun r => (r.1, r.2 ++ [((series.lookup r.1).join)]))⟩

/-- `DataFrame.dropna()` (src/app.py line 197): keep exactly the rows in
which every column has a present value. -/
def DF.dropna (df : DF) : DF :=
  ⟨df.names, df.rows.filter (fun r => r.2.all Option.isSome)⟩

/-- One iteration of the fetch loop of `get_portfolio_data` (src/app.py
lines 171-191) over the accumulated state
`(portfolio_data, valid_symbols, warnings)`: symbols with non-positive
weight are skipped; a usable history is converted by `pct_change` and
assigned as a column while the symbol is appended to `valid_symbols`; an
empty history or a caught exception appends the corresponding `st.warning`
message. -/
def fetchStep (pv : Provider) (acc : DF × List String × List String)
    (e : String × ℚ) : DF × List String × List String :=
  if 0 < e.2 then
    match pv e.1 0 with
    | FetchResult.ok h =>
      if h.isEmpty then (acc.1, acc.2.1, acc.2.2 ++ ["No data available for " ++ e.1])
      else (acc.1.assign e.1 (pct_change h), acc.2.1 ++ [e.1], acc.2.2)
    | FetchResult.exn m =>
      (acc.1, acc.2.1, acc.2.2 ++ ["Error fetching data for " ++ e.1 ++ ": " ++ m])
  else acc

/-- The weighted-blend loop (src/app.py lines 208-211) applied to one
aligned row: starting from `0.0`, for each valid symbol add that symbol's
column value times `portfolio[symbol] / total_weight`. -/
def rowBlend (port : List (String × ℚ)) (total : ℚ) (names : List String)
    (valid : List String) (row : List (Option ℚ)) : ℚ :=
  valid.foldl (fun acc s =>
    acc + (((names.zip row).lookup s).join.getD 0) * (((port.lookup s).getD 0) / total)) 0

/-- The tail of `get_portfolio_data` after the fetch loop (src/app.py lines
193-216): empty frame → `None`; `dropna`; empty again → `None`; recompute
`total_weight` over the valid symbols' original weights, `None` if zero;
otherwise blend each row with the renormalized weights and return the
cumulative product of `1 +` the blended returns, on the surviving dates. -/
def aggregate (port : List (String × ℚ)) (df : DF) (valid : List String)
    (warns : List String) : Option (List (Nat × ℚ)) × List String :=
  if df.emptyb then (none, warns)
  else if (DF.dropna df).emptyb then (none, warns)
  else if ((valid.map (fun s => ((port.lookup s).getD 0))).sum) = 0 then (none, warns)
  else
    (some (((DF.dropna df).rows.map Prod.fst).zip
      (cumprod ((DF.dropna df).rows.map (fun r =>
        1 + rowBlend port ((valid.map (fun s => ((port.lookup s).getD 0))).sum)
          (DF.dropna df).names valid r.2)))), warns)

/-- Embeds `get_portfolio_data` (src/app.py lines 160-219).  The first
component models its return value (`None` or the cumulative-return series);
the second collects the `st.warning` diagnostics.  The provider is queried
once per positively-weighted symbol (call number 0); the outer `except`
branch is unreachable in this model since every operation is total. -/
def get_portfolio_data (pv : Provider) (port : List (String × ℚ)) :
    Option (List (Nat × ℚ)) × List String :=
  if port.isEmpty then (none, [])
  else
    match port.foldl (fetchStep pv) (DF.mk [] [], [], []) with
    | (df, valid, warns) => aggregate port df valid warns

/-- The surviving symbols of a portfolio with their `pct_change` series:
exactly the positively-weighted symbols whose single fetch returned a
non-empty history, in portfolio order. -/
def survivingPcts (pv : Provider) (port : List (String × ℚ)) :
    List (String × List (Nat × Option ℚ)) :=
  port.filterMap (fun (e : String × ℚ) =>
    if 0 < e.2 then
      match pv e.1 0 with
      | FetchResult.ok h => if h.isEmpty then none else some (e.1, pct_change h)
      | FetchResult.exn _ => none
    else none)

/-- The `st.warning` messages the fetch loop emits, in portfolio order. -/
def fetchWarnings (pv : Provider) (port : List (String × ℚ)) : List String :=
  port.filterMap (fun (e : String × ℚ) =>
    if 0 < e.2 then
      match pv e.1 0 with
      | FetchResult.ok h =>
        if h.isEmpty then some ("No data available for " ++ e.1) else none
      | FetchResult.exn m => some ("Error fetching data for " ++ e.1 ++ ": " ++ m)
    else none)

/-- The `total_weight` recomputed over the surviving symbols (src/app.py
line 203): the sum of their original requested weights. -/
def survTotal (pv : Provider) (port : List (String × ℚ)) : ℚ :=
  ((survivingPcts pv port).map (fun e => ((port.lookup e.1).getD 0))).sum

/-- The DataFrame the fetch loop builds from given per-symbol series: the
first series provides the index, later series are aligned to it by date
lookup. -/
def mkDF (pcts : List (String × List (Nat × Option ℚ))) : DF :=
  ⟨pcts.map Prod.fst,
    match pcts with
    | [] => []
    | e :: rest =>
      e.2.map (fun d => (d.1, d.2 :: rest.map (fun q => ((q.2.lookup d.1).join))))⟩

/-- The rows that survive `dropna` on the frame built from the surviving
series: the date axis of the blended result. -/
def alignedRows (pcts : List (String × List (Nat × Option ℚ))) :
    List (Nat × List (Option ℚ)) :=
  (DF.dropna (mkDF pcts)).rows

/-- Transcribed from the claims' words (not from the source): the cumulative
series obtained by blending, at every aligned date, each surviving symbol's
return with the weight `original weight / sum of survivors' original
weights`, then taking the running product of `1 +` the blend. -/
def specCumSeries (pv : Provider) (port : List (String × ℚ)) : List (Nat × ℚ) :=
  ((alignedRows (survivingPcts pv port)).map Prod.fst).zip
    (cumprod ((alignedRows (survivingPcts pv port)).map (fun r =>
      1 + (List.zipWith
        (fun (e : String × List (Nat × Option ℚ)) (v : Option ℚ) =>
          (v.getD 0) * (((port.lookup e.1).getD 0) / survTotal pv port))
        (survivingPcts pv port) r.2).sum)))

lemma assign_mkDF (A : List (String × List (Nat × Option ℚ))) (s : String)
    (p : List (Nat × Option ℚ)) :
    (mkDF A).assign s p = mkDF (A ++ [(s, p)]) := by
  cases A with
  | nil => simp [mkDF, DF.assign]
  | cons a rest =>
    simp [mkDF, DF.assign, List.map_append, List.map_map, Function.comp]

lemma foldl_fetchStep (pv : Provider) (port : List (String × ℚ)) :
    ∀ (A : List (String × List (Nat × Option ℚ))) (ws : List String),
      port.foldl (fetchStep pv) (mkDF A, A.map Prod.fst, ws) =
        (mkDF (A ++ survivingPcts pv port),
         (A ++ survivingPcts pv port).map Prod.fst,
         ws ++ fetchWarnings pv port) := by
  induction port with
  | nil => intro A ws; simp [survivingPcts, fetchWarnings]
  | cons e rest ih =>
    intro A ws
    rw [List.foldl_cons]
    by_cases hw : 0 < e.2
    · cases hpe : pv e.1 0 with
      | ok h =>
        by_cases hhe : h.isEmpty
        · have hstep : fetchStep pv (mkDF A, A.map Prod.fst, ws) e =
              (mkDF A, A.map Prod.fst, ws ++ ["No data available for " ++ e.1]) := by
            simp [fetchStep, hw, hpe, hhe]
          have he0 : h = [] := by simpa [List.isEmpty_iff] using hhe
          rw [hstep, ih A (ws ++ ["No data available for " ++ e.1])]
          simp [survivingPcts, fetchWarnings, List.filterMap_cons, hw, hpe, he0]
        · have hstep : fetchStep pv (mkDF A, A.map Prod.fst, ws) e =
              (mkDF (A ++ [(e.1, pct_change h)]),
               (A ++ [(e.1, pct_change h)]).map Prod.fst, ws) := by
            simp [fetchStep, hw, hpe, hhe, assign_mkDF]
          have he0 : h ≠ [] := by simpa [List.isEmpty_iff] using hhe
          rw [hstep, ih (A ++ [(e.1, pct_change h)]) ws]
          simp [survivingPcts, fetchWarnings, List.filterMap_cons, hw, hpe, he0]
      | exn m =>
        have hstep : fetchStep pv (mkDF A, A.map Prod.fst, ws) e =
            (mkDF A, A.map Prod.fst,
             ws ++ ["Error fetching data for " ++ e.1 ++ ": " ++ m]) := by
          simp [fetchStep, hw, hpe]
        rw [hstep, ih A (ws ++ ["Error fetching data for " ++ e.1 ++ ": " ++ m])]
        simp [survivingPcts, fetchWarnings, List.filterMap_cons, hw, hpe]
    · have hstep : fetchStep pv (mkDF A, A.map Prod.fst, ws) e =
          (mkDF A, A.map Prod.fst, ws) := by
        simp [fetchStep, hw]
      rw [hstep, ih A ws]
      simp [survivingPcts, fetchWarnings, List.filterMap_cons, hw]

lemma gpd_state (pv : Provider) (port : List (String × ℚ)) (hp : port ≠ []) :
    get_portfolio_data pv port =
      aggregate port (mkDF (survivingPcts pv port))
        ((survivingPcts pv port).map Prod.fst) (fetchWarnings pv port) := by
  have hfold := foldl_fetchStep pv port [] []
  simp only [List.map_nil, List.nil_append] at hfold
  rw [get_portfolio_data, if_neg (by simpa [List.isEmpty_iff] using hp)]
  have hinit : (DF.mk [] [] : DF) = mkDF [] := rfl
  rw [hinit, hfold]

lemma pct_change_ne_nil {h : List (Nat × ℚ)} (hne : h ≠ []) : pct_change h ≠ [] := by
  cases h with
  | nil => exact absurd rfl hne
  | cons e rest => simp [pct_change]

lemma mem_survivingPcts {pv : Provider} {port : List (String × ℚ)}
    {e : String × List (Nat × Option ℚ)} (he : e ∈ survivingPcts pv port) :
    ∃ w h, (e.1, w) ∈ port ∧ 0 < w ∧ pv e.1 0 = FetchResult.ok h ∧ h ≠ [] ∧
      e.2 = pct_change h := by
  rcases List.mem_filterMap.mp he with ⟨a, ha, hfa⟩
  by_cases hw : 0 < a.2
  · rw [if_pos hw] at hfa
    rcases hpa : pv a.1 0 with h | m
    · rw [hpa] at hfa
      dsimp only [] at hfa
      by_cases hhe : h.isEmpty
      · rw [if_pos hhe] at hfa
        exact absurd hfa (by simp)
      · rw [if_neg hhe] at hfa
        obtain rfl : (a.1, pct_change h) = e := Option.some.inj hfa
        exact ⟨a.2, h, by simpa using ha, hw, hpa,
          by simpa [List.isEmpty_iff] using hhe, rfl⟩
    · rw [hpa] at hfa
      exact absurd hfa (by simp)
  · rw [if_neg hw] at hfa
    exact absurd hfa (by simp)

lemma surv_pct_ne_nil {pv : Provider} {port : List (String × ℚ)}
    {e : String × List (Nat × Option ℚ)} (he : e ∈ survivingPcts pv port) :
    e.2 ≠ [] := by
  rcases mem_survivingPcts he with ⟨w, h, _, _, _, hne, hpe⟩
  rw [hpe]
  exact pct_change_ne_nil hne

lemma mkDF_emptyb_cons {e : String × List (Nat × Option ℚ)}
    {rest : List (String × List (Nat × Option ℚ))} (hne : e.2 ≠ []) :
    (mkDF (e :: rest)).emptyb = false := by
  simp [DF.emptyb, mkDF, List.isEmpty_iff, hne]

lemma survTotal_map (pv : Provider) (port : List (String × ℚ)) :
    (((survivingPcts pv port).map Prod.fst).map
      (fun s => ((port.lookup s).getD 0))).sum = survTotal pv port := by
  rw [survTotal, List.map_map]
  rfl

/-- The full unfolding of `get_portfolio_data` on a non-empty portfolio in
terms of the surviving series: the three `None` guards of the source become
"no survivor", "no aligned row", "zero surviving weight". -/
lemma gpd_result (pv : Provider) (port : List (String × ℚ)) (hp : port ≠ []) :
    get_portfolio_data pv port =
      (if survivingPcts pv port = [] then none
       else if alignedRows (survivingPcts pv port) = [] then none
       else if survTotal pv port = 0 then none
       else some (((alignedRows (survivingPcts pv port)).map Prod.fst).zip
         (cumprod ((alignedRows (survivingPcts pv port)).map (fun r =>
           1 + rowBlend port (survTotal pv port)
             ((survivingPcts pv port).map Prod.fst)
             ((survivingPcts pv port).map Prod.fst) r.2)))),
       fetchWarnings pv port) := by
  rw [gpd_state pv port hp]
  cases hS : survivingPcts pv port with
  | nil =>
    simp [aggregate, mkDF, DF.emptyb]
  | cons e rest =>
    have hpe : e.2 ≠ [] := surv_pct_ne_nil (by rw [hS]; exact List.mem_cons_self e rest)
    have hdf : (mkDF (e :: rest)).emptyb = false := mkDF_emptyb_cons hpe
    rw [aggregate, hdf]
    simp only [Bool.false_eq_true, if_false, reduceCtorEq]
    have hnames : (DF.dropna (mkDF (e :: rest))).names = (e :: rest).map Prod.fst := rfl
    have hrows : (DF.dropna (mkDF (e :: rest))).rows = alignedRows (e :: rest) := rfl
    by_cases halign : alignedRows (e :: rest) = []
    · have : (DF.dropna (mkDF (e :: rest))).emptyb = true := by
        simp [DF.emptyb, hrows, halign, List.isEmpty_iff]
      rw [this]
      simp [halign]
    · have hde : (DF.dropna (mkDF (e :: rest))).emptyb = false := by
        rw [DF.emptyb, hnames, hrows]
        simp [List.isEmpty_iff, halign]
      rw [hde]
      simp only [Bool.false_eq_true, if_false]
      rw [← hS, survTotal_map pv port, hS]
      by_cases htot : survTotal pv port = 0
      · simp [htot, halign]
      · simp [htot, halign, hnames, hrows]

/-- C6 (amended): on the code, `get_portfolio_data` returns `None` exactly
when the portfolio is empty, or no positively-weighted symbol returns a
non-empty price history, or no date is common to every surviving return
series (the aligned frame is empty after `dropna` — this includes every
survivor-plus-one-point-symbol situation), or the surviving original weights
sum to 0; any other input produces a series. -/
theorem evaluate_null_iff (pv : Provider) (port : List (String × ℚ)) :
    (get_portfolio_data pv port).1 = none ↔
      port = [] ∨ survivingPcts pv port = [] ∨
      alignedRows (survivingPcts pv port) = [] ∨ survTotal pv port = 0 := by
  by_cases hp : port = []
  · subst hp
    simp [get_portfolio_data]
  · rw [gpd_result pv port hp]
    by_cases h1 : survivingPcts pv port = []
    · simp [h1]
    · by_cases h2 : alignedRows (survivingPcts pv port) = []
      · simp [h1, h2]
      · by_cases h3 : survTotal pv port = 0
        · simp [h1, h2, h3]
        · simp [h1, h2, h3, hp]

lemma lookup_cons_self {α β : Type} [BEq α] [LawfulBEq α] (k : α) (b : β)
    (t : List (α × β)) : List.lookup k ((k, b) :: t) = some b := by
  simp [List.lookup]

lemma lookup_cons_ne {α β : Type} [BEq α] [LawfulBEq α] {a k : α} (b : β)
    (t : List (α × β)) (h : a ≠ k) :
    List.lookup a ((k, b) :: t) = List.lookup a t := by
  simp [List.lookup, beq_eq_false_iff_ne.mpr h]

lemma lookup_of_mem_nodup {α β : Type} [BEq α] [LawfulBEq α] {l : List (α × β)}
    (hnd : (l.map Prod.fst).Nodup) {x : α × β} (hx : x ∈ l) :
    List.lookup x.1 l = some x.2 := by
  induction l with
  | nil => cases hx
  | cons a t ih =>
    have hnd' : a.1 ∉ t.map Prod.fst ∧ (t.map Prod.fst).Nodup := by
      rw [List.map_cons] at hnd
      exact List.nodup_cons.mp hnd
    rcases List.mem_cons.mp hx with rfl | hxt
    · obtain ⟨k, b⟩ := x
      exact lookup_cons_self k b t
    · have hne : x.1 ≠ a.1 := by
        intro hcontra
        exact hnd'.1 (hcontra ▸ List.mem_map_of_mem Prod.fst hxt)
      obtain ⟨k, b⟩ := a
      rw [lookup_cons_ne b t hne]
      exact ih hnd'.2 hxt

lemma mem_of_lookup_eq_some {α β : Type} [BEq α] [LawfulBEq α] {l : List (α × β)}
    {d : α} {v : β} (h : List.lookup d l = some v) : (d, v) ∈ l := by
  induction l with
  | nil => simp [List.lookup] at h
  | cons a t ih =>
    obtain ⟨k, b⟩ := a
    by_cases hdk : d = k
    · subst hdk
      rw [lookup_cons_self] at h
      obtain rfl := Option.some.inj h
      exact List.mem_cons_self _ _
    · rw [lookup_cons_ne b t hdk] at h
      exact List.mem_cons_of_mem _ (ih h)

lemma mem_iff_lookup_join_isSome {l : List (Nat × Option ℚ)}
    (hnd : (l.map Prod.fst).Nodup) (d : Nat) :
    (∃ x ∈ l, x.1 = d ∧ x.2.isSome) ↔ ((List.lookup d l).join).isSome := by
  constructor
  · rintro ⟨x, hx, hd, hs⟩
    subst hd
    rw [lookup_of_mem_nodup hnd hx]
    simpa using hs
  · intro hjs
    cases hlu : List.lookup d l with
    | none => rw [hlu] at hjs; simp at hjs
    | some o =>
      rw [hlu] at hjs
      cases o with
      | none => simp at hjs
      | some v => exact ⟨(d, some v), mem_of_lookup_eq_some hlu, rfl, rfl⟩

lemma cumprod_length (xs : List ℚ) : (cumprod xs).length = xs.length := by
  rw [cumprod, List.length_tail, List.length_scanl]
  simp

lemma alignedRows_eq_filter (pcts : List (String × List (Nat × Option ℚ))) :
    alignedRows pcts = (mkDF pcts).rows.filter (fun r => r.2.all Option.isSome) := rfl

lemma alignedRows_row_length {e : String × List (Nat × Option ℚ)}
    {rest : List (String × List (Nat × Option ℚ))} {r : Nat × List (Option ℚ)}
    (hr : r ∈ alignedRows (e :: rest)) : r.2.length = (e :: rest).length := by
  have h1 : r ∈ (mkDF (e :: rest)).rows := (List.mem_filter.mp hr).1
  rcases List.mem_map.mp h1 with ⟨x, _, hfx⟩
  subst hfx
  simp [List.length_map]

/-- C1 (amended): whenever `get_portfolio_data` produces a series, a date
appears on its axis if and only if EVERY surviving symbol's return series
carries a (non-NaN) value at that date: the axis is the intersection of the
surviving series' return dates, not their union, and no per-date zero
substitution occurs (dates missing from any surviving series are dropped
outright). -/
theorem portfolio_alignment_intersection (pv : Provider)
    (port : List (String × ℚ)) (cum : List (Nat × ℚ))
    (hnd : ∀ e ∈ survivingPcts pv port, (e.2.map Prod.fst).Nodup)
    (hres : (get_portfolio_data pv port).1 = some cum) :
    ∀ d : Nat, d ∈ cum.map Prod.fst ↔
      ∀ e ∈ survivingPcts pv port, ((List.lookup d e.2).join).isSome := by
  have hp : port ≠ [] := by
    intro hcontra
    subst hcontra
    simp [get_portfolio_data] at hres
  rw [gpd_result pv port hp] at hres
  by_cases h1 : survivingPcts pv port = []
  · simp [h1] at hres
  · by_cases h2 : alignedRows (survivingPcts pv port) = []
    · simp [h1, h2] at hres
    · by_cases h3 : survTotal pv port = 0
      · simp [h1, h2, h3] at hres
      · simp only [h1, h2, h3, if_false, reduceIte] at hres
        obtain rfl := Option.some.inj hres.symm
        have hmf : ((((alignedRows (survivingPcts pv port)).map Prod.fst).zip
            (cumprod ((alignedRows (survivingPcts pv port)).map (fun r =>
              1 + rowBlend port (survTotal pv port)
                ((survivingPcts pv port).map Prod.fst)
                ((survivingPcts pv port).map Prod.fst) r.2)))).map Prod.fst) =
            (alignedRows (survivingPcts pv port)).map Prod.fst := by
          apply List.map_fst_zip
          rw [cumprod_length, List.length_map, List.length_map]
        rw [hmf]
        intro d
        rcases hSs : survivingPcts pv port with _ | ⟨e0, rest⟩
        · exact absurd hSs h1
        · rw [hSs] at hnd
          have hnd0 : (e0.2.map Prod.fst).Nodup := hnd e0 (List.mem_cons_self e0 rest)
          constructor
          · intro hdm
            rcases List.mem_map.mp hdm with ⟨r, hr, hrd⟩
            have hflt := List.mem_filter.mp hr
            rcases List.mem_map.mp hflt.1 with ⟨x, hx, hfx⟩
            have hall := hflt.2
            subst hfx
            have hd : x.1 = d := hrd
            rw [List.all_cons, Bool.and_eq_true] at hall
            intro q hq
            rcases List.mem_cons.mp hq with rfl | hqr
            · exact (mem_iff_lookup_join_isSome hnd0 d).mp ⟨x, hx, hd, hall.1⟩
            · have := (List.all_eq_true.mp hall.2)
                ((List.lookup x.1 q.2).join) (List.mem_map_of_mem _ hqr)
              rw [hd] at this
              exact this
          · intro hall
            have h0 := hall e0 (List.mem_cons_self e0 rest)
            rcases (mem_iff_lookup_join_isSome hnd0 d).mpr h0 with ⟨x, hx, hd, hs⟩
            apply List.mem_map.mpr
            refine ⟨(x.1, x.2 :: rest.map (fun q => ((List.lookup x.1 q.2).join))), ?_, hd⟩
            apply List.mem_filter.mpr
            refine ⟨List.mem_map_of_mem _ hx, ?_⟩
            rw [List.all_cons, Bool.and_eq_true]
            refine ⟨hs, List.all_eq_true.mpr ?_⟩
            intro b hb
            rcases List.mem_map.mp hb with ⟨q, hq, hbq⟩
            subst hbq
            rw [hd]
            exact hall q (List.mem_cons_of_mem e0 hq)

lemma foldl_add_extract (g : String → ℚ) (l : List String) :
    ∀ init : ℚ, l.foldl (fun a s => a + g s) init =
      init + l.foldl (fun a s => a + g s) 0 := by
  induction l with
  | nil => intro init; simp
  | cons x xs ih =>
    intro init
    rw [List.foldl_cons, List.foldl_cons, ih (init + g x), ih (0 + g x)]
    ring

lemma foldl_congr_mem {α β : Type} (l : List α) (f g : β → α → β) (b : β)
    (h : ∀ bb a, a ∈ l → f bb a = g bb a) : l.foldl f b = l.foldl g b := by
  induction l generalizing b with
  | nil => rfl
  | cons x xs ih =>
    rw [List.foldl_cons, List.foldl_cons, h b x (List.mem_cons_self x xs)]
    exact ih _ (fun bb a ha => h bb a (List.mem_cons_of_mem x ha))

/-- The lookup-driven blend loop of the source computes exactly the
positional weighted sum over the surviving symbols, provided the symbol
names are distinct (they are: Python dict keys). -/
lemma rowBlend_eq_zipWith (port : List (String × ℚ)) (total : ℚ) :
    ∀ (S : List (String × List (Nat × Option ℚ))) (row : List (Option ℚ)),
      (S.map Prod.fst).Nodup → row.length = S.length →
      rowBlend port total (S.map Prod.fst) (S.map Prod.fst) row =
        (List.zipWith
          (fun (e : String × List (Nat × Option ℚ)) (v : Option ℚ) =>
            (v.getD 0) * (((port.lookup e.1).getD 0) / total)) S row).sum := by
  intro S
  induction S with
  | nil =>
    intro row _ hlen
    rw [List.length_eq_zero.mp hlen]
    rfl
  | cons e es ih =>
    intro row hnd hlen
    cases row with
    | nil => simp at hlen
    | cons v vs =>
      have hnd' : e.1 ∉ es.map Prod.fst ∧ (es.map Prod.fst).Nodup := by
        rw [List.map_cons] at hnd
        exact List.nodup_cons.mp hnd
      have hlen' : vs.length = es.length := by simpa using hlen
      rw [List.map_cons, List.zipWith_cons_cons, List.sum_cons]
      rw [rowBlend, List.foldl_cons]
      have hhead : ((((e.1 :: es.map Prod.fst).zip (v :: vs)).lookup e.1).join.getD 0) = v.getD 0 := by
        rw [List.zip_cons_cons, lookup_cons_self]
        rfl
      rw [hhead]
      have htail : (es.map Prod.fst).foldl (fun acc s =>
          acc + ((((e.1 :: es.map Prod.fst).zip (v :: vs)).lookup s).join.getD 0) *
            (((port.lookup s).getD 0) / total))
          (0 + v.getD 0 * (((port.lookup e.1).getD 0) / total)) =
          (es.map Prod.fst).foldl (fun acc s =>
            acc + ((((es.map Prod.fst).zip vs).lookup s).join.getD 0) *
              (((port.lookup s).getD 0) / total))
          (0 + v.getD 0 * (((port.lookup e.1).getD 0) / total)) := by
        apply foldl_congr_mem
        intro bb s hs
        have hne : s ≠ e.1 := fun hcontra => hnd'.1 (hcontra ▸ hs)
        rw [List.zip_cons_cons, lookup_cons_ne _ _ hne]
      rw [htail, foldl_add_extract, zero_add]
      have := ih vs hnd'.2 hlen'
      rw [rowBlend] at this
      rw [this]

lemma survivingPcts_keys_sublist (pv : Provider) (port : List (String × ℚ)) :
    ((survivingPcts pv port).map Prod.fst).Sublist (port.map Prod.fst) := by
  induction port with
  | nil => simp [survivingPcts]
  | cons e rest ih =>
    by_cases hw : 0 < e.2
    · rcases hpe : pv e.1 0 with h | m
      · by_cases hhe : h = []
        · simp only [survivingPcts, List.filterMap_cons, hw, hpe, hhe, if_true, if_pos,
            List.isEmpty_nil, List.map_cons]
          simp only [survivingPcts] at ih
          exact ih.cons e.1
        · have hb : h.isEmpty = false := by simpa [List.isEmpty_iff] using hhe
          simp only [survivingPcts, List.filterMap_cons, hw, hpe, hb, if_true,
            Bool.false_eq_true, if_false, List.map_cons]
          simp only [survivingPcts] at ih
          exact ih.cons₂ e.1
      · simp only [survivingPcts, List.filterMap_cons, hw, hpe, if_true, List.map_cons]
        simp only [survivingPcts] at ih
        exact ih.cons e.1
    · simp only [survivingPcts, List.filterMap_cons, hw, if_false, List.map_cons]
      simp only [survivingPcts] at ih
      exact ih.cons e.1

lemma sum_map_div (t : ℚ) : ∀ l : List ℚ, (l.map (fun x => x / t)).sum = l.sum / t := by
  intro l
  induction l with
  | nil => simp
  | cons x xs ih => simp [ih, add_div]

lemma surv_weight_pos {pv : Provider} {port : List (String × ℚ)}
    (hnd : (port.map Prod.fst).Nodup) {e : String × List (Nat × Option ℚ)}
    (he : e ∈ survivingPcts pv port) : 0 < (port.lookup e.1).getD 0 := by
  rcases mem_survivingPcts he with ⟨w, h, hmem, hwpos, _, _, _⟩
  have := lookup_of_mem_nodup hnd hmem
  rw [this]
  exact hwpos

lemma survTotal_pos {pv : Provider} {port : List (String × ℚ)}
    (hnd : (port.map Prod.fst).Nodup) (hsurv : survivingPcts pv port ≠ []) :
    0 < survTotal pv port := by
  rw [survTotal]
  apply List.sum_pos
  · intro x hx
    rcases List.mem_map.mp hx with ⟨e, he, hfe⟩
    subst hfe
    exact surv_weight_pos hnd he
  · intro hcontra
    exact hsurv (List.map_eq_nil_iff.mp hcontra)

/-- C2 (amended): when some positively-weighted symbols fail to fetch but at
least one survives AND the surviving return series share at least one
aligned date, `get_portfolio_data` returns exactly the series obtained by
blending the survivors with weights `original / (sum of survivors'
originals)` (which sum to 1) over the aligned dates, and a
"No data available" warning is recorded for every failed symbol.  Without a
common date the source returns `None` even though survivors exist (see the
counterexample). -/
theorem partial_failure_renormalized (pv : Provider) (port : List (String × ℚ))
    (hnd : (port.map Prod.fst).Nodup)
    (hsurv : survivingPcts pv port ≠ [])
    (halign : alignedRows (survivingPcts pv port) ≠ [])
    (hfail : ∃ e ∈ port, 0 < e.2 ∧ pv e.1 0 = FetchResult.ok []) :
    (get_portfolio_data pv port).1 = some (specCumSeries pv port) ∧
    specCumSeries pv port ≠ [] ∧
    ((survivingPcts pv port).map
      (fun e => ((port.lookup e.1).getD 0) / survTotal pv port)).sum = 1 ∧
    (∀ e ∈ port, 0 < e.2 → pv e.1 0 = FetchResult.ok [] →
      ("No data available for " ++ e.1) ∈ (get_portfolio_data pv port).2) := by
  have hp : port ≠ [] := by
    rcases hfail with ⟨e, he, _⟩
    intro hcontra
    rw [hcontra] at he
    cases he
  have hSnd : ((survivingPcts pv port).map Prod.fst).Nodup :=
    (survivingPcts_keys_sublist pv port).nodup hnd
  have htotpos := survTotal_pos hnd hsurv
  have htotne : survTotal pv port ≠ 0 := ne_of_gt htotpos
  refine ⟨?_, ?_, ?_, ?_⟩
  · rw [gpd_result pv port hp, if_neg hsurv, if_neg halign, if_neg htotne]
    have hX : (alignedRows (survivingPcts pv port)).map (fun r =>
        1 + rowBlend port (survTotal pv port)
          ((survivingPcts pv port).map Prod.fst)
          ((survivingPcts pv port).map Prod.fst) r.2) =
        (alignedRows (survivingPcts pv port)).map (fun r =>
          1 + (List.zipWith
            (fun (e : String × List (Nat × Option ℚ)) (v : Option ℚ) =>
              (v.getD 0) * (((port.lookup e.1).getD 0) / survTotal pv port))
            (survivingPcts pv port) r.2).sum) := by
      apply List.map_congr_left
      intro r hr
      have hlen : r.2.length = (survivingPcts pv port).length := by
        rcases hSs : survivingPcts pv port with _ | ⟨e0, rest⟩
        · exact absurd hSs hsurv
        · rw [hSs] at hr
          exact alignedRows_row_length hr
      rw [rowBlend_eq_zipWith port (survTotal pv port) (survivingPcts pv port)
        r.2 hSnd hlen]
    exact congrArg Prod.fst
      (congrArg (fun z => ((some z : Option (List (Nat × ℚ))), fetchWarnings pv port))
        (by rw [specCumSeries, hX]))
  · intro hcontra
    have hlen : (specCumSeries pv port).length =
        (alignedRows (survivingPcts pv port)).length := by
      rw [specCumSeries, List.length_zip, cumprod_length, List.length_map,
        List.length_map, min_self]
    rw [hcontra] at hlen
    exact halign (List.length_eq_zero.mp hlen.symm)
  · calc ((survivingPcts pv port).map
        (fun e => ((port.lookup e.1).getD 0) / survTotal pv port)).sum
        = (((survivingPcts pv port).map
            (fun e => (port.lookup e.1).getD 0)).map
              (fun x => x / survTotal pv port)).sum := by
          rw [List.map_map]
          rfl
      _ = ((survivingPcts pv port).map (fun e => (port.lookup e.1).getD 0)).sum /
            survTotal pv port := sum_map_div _ _
      _ = survTotal pv port / survTotal pv port := rfl
      _ = 1 := div_self htotne
  · intro e he hwe hoke
    rw [gpd_result pv port hp]
    show ("No data available for " ++ e.1) ∈ fetchWarnings pv port
    apply List.mem_filterMap.mpr
    refine ⟨e, he, ?_⟩
    simp [hwe, hoke]

/-- Provider for the alignment counterexample: symbol A has three price
dates 0,1,2; symbol B only dates 0,1. -/
def pvC1 : Provider := fun s _ =>
  if s = "A" then FetchResult.ok [(0, 100), (1, 110), (2, 121)]
  else if s = "B" then FetchResult.ok [(0, 50), (1, 55)]
  else FetchResult.ok []

/-- Equal-weight two-symbol portfolio for the alignment counterexample. -/
def portC1 : List (String × ℚ) := [("A", 1), ("B", 1)]

lemma survC1_eval : survivingPcts pvC1 portC1 =
    [("A", [(0, none), (1, some ((1 : ℚ)/10)), (2, some ((1 : ℚ)/10))]),
     ("B", [(0, none), (1, some ((1 : ℚ)/10))])] := by
  simp [survivingPcts, portC1, List.filterMap_cons, pvC1, pct_change, pctAux]
  norm_num

lemma alignC1_eval :
    alignedRows [("A", [(0, none), (1, some ((1 : ℚ)/10)), (2, some ((1 : ℚ)/10))]),
      ("B", [(0, none), (1, some ((1 : ℚ)/10))])] =
    [(1, [some ((1 : ℚ)/10), some ((1 : ℚ)/10)])] := by
  simp [alignedRows, DF.dropna, mkDF, List.lookup, Option.join, List.filter_cons,
    List.all_cons]

lemma totC1_eval : survTotal pvC1 portC1 = 2 := by
  rw [survTotal, survC1_eval]
  simp [portC1, List.lookup]
  norm_num

/-- C1 counterexample: with A fetched on dates 0,1,2 and B on dates 0,1,
date 2 lies in A's (surviving, non-empty) daily-return series, yet the
blended result is emitted for date 1 only: the union-with-zero-contribution
policy of the claim would have produced an entry at date 2 with blended
return `weight_A * return_A(2)`, but the source drops the date entirely. -/
theorem portfolio_alignment_not_union_cex :
    (get_portfolio_data pvC1 portC1).1 = some [(1, (11 : ℚ)/10)] ∧
    (dropnaS (pct_change [(0, (100 : ℚ)), (1, 110), (2, 121)])).map Prod.fst = [1, 2] := by
  constructor
  · rw [gpd_result pvC1 portC1 (by simp [portC1]), survC1_eval, alignC1_eval]
    rw [show survTotal pvC1 portC1 = 2 from totC1_eval]
    simp [rowBlend, cumprod, portC1, List.lookup, Option.join,
      List.foldl_cons, List.scanl, List.zip_cons_cons]
    norm_num
  · simp [dropnaS, pct_change, pctAux, List.filterMap_cons]

/-- Provider for the alignment witness: a single usable symbol A. -/
def pvW1 : Provider := fun s _ =>
  if s = "A" then FetchResult.ok [(0, 100), (1, 110)] else FetchResult.ok []

/-- Single-symbol portfolio for the alignment witness. -/
def portW1 : List (String × ℚ) := [("A", 1)]

lemma survW1_eval : survivingPcts pvW1 portW1 =
    [("A", [(0, none), (1, some ((1 : ℚ)/10))])] := by
  simp [survivingPcts, portW1, List.filterMap_cons, pvW1, pct_change, pctAux]
  norm_num

lemma gpdW1_eval : (get_portfolio_data pvW1 portW1).1 = some [(1, (11 : ℚ)/10)] := by
  rw [gpd_result pvW1 portW1 (by simp [portW1]), survW1_eval]
  have halign : alignedRows [("A", [(0, none), (1, some ((1 : ℚ)/10))])] =
      [(1, [some ((1 : ℚ)/10)])] := by
    simp [alignedRows, DF.dropna, mkDF, List.filter_cons, List.all_cons]
  have htot : survTotal pvW1 portW1 = 1 := by
    rw [survTotal, survW1_eval]
    simp [portW1, List.lookup]
  rw [halign, htot]
  simp [rowBlend, cumprod, portW1, List.lookup, Option.join, List.foldl_cons,
    List.scanl, List.zip_cons_cons]
  norm_num

/-- C1 witness: the intersection characterization instantiated at a concrete
one-symbol evaluation and the date 1. -/
theorem portfolio_alignment_intersection_witness :
    (1 ∈ ([((1 : Nat), (11 : ℚ)/10)].map Prod.fst) ↔
      ∀ e ∈ survivingPcts pvW1 portW1, ((List.lookup 1 e.2).join).isSome) :=
  portfolio_alignment_intersection pvW1 portW1 [(1, (11 : ℚ)/10)]
    (by
      rw [survW1_eval]
      intro e he
      rw [List.mem_singleton] at he
      subst he
      decide)
    gpdW1_eval 1

/-- Provider for the partial-failure counterexample: A and B usable on
disjoint date ranges, C always empty. -/
def pvC2 : Provider := fun s _ =>
  if s = "A" then FetchResult.ok [(0, 100), (1, 110)]
  else if s = "B" then FetchResult.ok [(2, 50), (3, 55)]
  else FetchResult.ok []

/-- Three-symbol portfolio for the partial-failure counterexample. -/
def portC2 : List (String × ℚ) := [("A", 1), ("B", 1), ("C", 1)]

/-- C2 counterexample: C's fetch fails (empty) while A and B both yield
non-empty daily-return series, yet `get_portfolio_data` returns `None`
because the two surviving series have no date in common — the claim's
unconditional "non-null series computed from the survivors" is false. -/
theorem partial_failure_null_cex :
    (get_portfolio_data pvC2 portC2).1 = none ∧
    pvC2 "C" 0 = FetchResult.ok [] ∧
    dropnaS (pct_change [(0, (100 : ℚ)), (1, 110)]) = [(1, (1 : ℚ)/10)] ∧
    dropnaS (pct_change [(2, (50 : ℚ)), (3, 55)]) = [(3, (1 : ℚ)/10)] := by
  refine ⟨?_, rfl, ?_, ?_⟩
  · have hS : survivingPcts pvC2 portC2 =
        [("A", [(0, none), (1, some ((1 : ℚ)/10))]),
         ("B", [(2, none), (3, some ((1 : ℚ)/10))])] := by
      simp [survivingPcts, portC2, List.filterMap_cons, pvC2, pct_change, pctAux]
      norm_num
    have halign : alignedRows [("A", [(0, none), (1, some ((1 : ℚ)/10))]),
        ("B", [(2, none), (3, some ((1 : ℚ)/10))])] = [] := by
      simp [alignedRows, DF.dropna, mkDF, List.lookup, Option.join,
        List.filter_cons, List.all_cons]
    rw [gpd_result pvC2 portC2 (by simp [portC2]), hS, halign]
    simp
  · simp [dropnaS, pct_change, pctAux, List.filterMap_cons]
    norm_num
  · simp [dropnaS, pct_change, pctAux, List.filterMap_cons]
    norm_num

/-- Provider for the partial-failure witness: A and B usable on the same
dates, C always empty. -/
def pvW2 : Provider := fun s _ =>
  if s = "A" then FetchResult.ok [(0, 100), (1, 110)]
  else if s = "B" then FetchResult.ok [(0, 50), (1, 45)]
  else FetchResult.ok []

/-- Three-symbol portfolio for the partial-failure witness. -/
def portW2 : List (String × ℚ) := [("A", 3), ("B", 1), ("C", 1)]

lemma survW2_eval : survivingPcts pvW2 portW2 =
    [("A", [(0, none), (1, some ((1 : ℚ)/10))]),
     ("B", [(0, none), (1, some (-(1 : ℚ)/10))])] := by
  simp [survivingPcts, portW2, List.filterMap_cons, pvW2, pct_change, pctAux]
  norm_num

lemma alignW2_eval : alignedRows [("A", [(0, none), (1, some ((1 : ℚ)/10))]),
    ("B", [(0, none), (1, some (-(1 : ℚ)/10))])] =
    [(1, [some ((1 : ℚ)/10), some (-(1 : ℚ)/10)])] := by
  simp [alignedRows, DF.dropna, mkDF, List.lookup, Option.join,
    List.filter_cons, List.all_cons]

/-- C2 witness: a concrete portfolio with one failing symbol and two aligned
survivors evaluates to the renormalized blended series. -/
theorem partial_failure_renormalized_witness :
    (get_portfolio_data pvW2 portW2).1 = some (specCumSeries pvW2 portW2) :=
  (partial_failure_renormalized pvW2 portW2 (by decide)
    (by rw [survW2_eval]; simp)
    (by rw [survW2_eval, alignW2_eval]; simp)
    ⟨("C", 1), by decide, by norm_num, rfl⟩).1

/-- Provider for the null-conditions counterexample: A usable with two
dates, B returns a single price point (a non-empty fetch whose return
series is empty). -/
def pvC6 : Provider := fun s _ =>
  if s = "A" then FetchResult.ok [(0, 100), (1, 110)]
  else if s = "B" then FetchResult.ok [(0, 50)]
  else FetchResult.ok []

/-- Two-symbol portfolio for the null-conditions counterexample. -/
def portC6 : List (String × ℚ) := [("A", 1), ("B", 1)]

/-- C6 counterexample: the portfolio is non-empty, symbol A yields a usable
(non-empty) daily-return series, and the surviving weights sum to 2 ≠ 0, so
the claim's "returns null exactly when..." requires a non-null result; but
B's single price point makes its column all-NaN, `dropna` erases every row,
and the source returns `None`. -/
theorem evaluate_null_conditions_cex :
    (get_portfolio_data pvC6 portC6).1 = none ∧
    dropnaS (pct_change [(0, (100 : ℚ)), (1, 110)]) ≠ [] ∧
    survTotal pvC6 portC6 = 2 := by
  have hS : survivingPcts pvC6 portC6 =
      [("A", [(0, none), (1, some ((1 : ℚ)/10))]), ("B", [(0, none)])] := by
    simp [survivingPcts, portC6, List.filterMap_cons, pvC6, pct_change, pctAux]
    norm_num
  refine ⟨?_, ?_, ?_⟩
  · have halign : alignedRows [("A", [(0, none), (1, some ((1 : ℚ)/10))]),
        ("B", [(0, none)])] = [] := by
      simp [alignedRows, DF.dropna, mkDF, List.lookup, Option.join,
        List.filter_cons, List.all_cons]
    rw [gpd_result pvC6 portC6 (by simp [portC6]), hS, halign]
    simp
  · simp [dropnaS, pct_change, pctAux, List.filterMap_cons]
  · rw [survTotal, hS]
    simp [portC6, List.lookup]
    norm_num
